import Mathlib

/-!
Verification development for the `directory_digger` crawler.

The Python core under `src/` is shallowly embedded here:

* `src/crawler/crawler.py` — `WebCrawler._collect_links` (link
  classification), `WebCrawler._calculate_url_hierarchy`,
  `WebCrawler._extract_breadcrumb`, `WebCrawler._process_url`, and the
  scheduling loop `WebCrawler.start_crawl`;
* `src/utils/hierarchy.py` — `build_hierarchy_tree` and
  `compare_hierarchies`.

Python strings are modelled as Lean `String`; the handful of `str`
methods the source uses (`strip`, `startswith`, `split`, `rstrip`,
`'#'.split`, `' > '.join`) are given executable models over the
character list so that every definition evaluates inside the kernel.
The external URL library (`urllib.parse.urljoin`/`urlparse`,
`validators.url`) and the HTML parser (`BeautifulSoup`) are external
collaborators of the core; they are abstracted as parameter structures
(`UrlLib`, `Soup`), plus one small concrete model (`urlLibModel`) used
to evaluate the definitions on closed inputs.
-/

/-- Model of Python `str.strip()` on a character list: drop whitespace
from both ends. -/
def stripChars (l : List Char) : List Char :=
  ((l.dropWhile Char.isWhitespace).reverse.dropWhile Char.isWhitespace).reverse

/-- Model of Python `str.strip()`. -/
def pyStrip (s : String) : String := ⟨stripChars s.data⟩

/-- Model of Python `str.startswith(pre)`. -/
def strStartsWith (s pre : String) : Bool := pre.data.isPrefixOf s.data

/-- Model of Python `str.rstrip(c)` for a single character: drop every
trailing occurrence of `c`. -/
def rstripChar (c : Char) (s : String) : String :=
  ⟨(s.data.reverse.dropWhile (fun a => a = c)).reverse⟩

/-- Splitting a character list on a separator character, Python
`str.split(sep)` style: always at least one (possibly empty) group. -/
def charsSplitOn (c : Char) : List Char → List (List Char)
  | [] => [[]]
  | a :: rest =>
    let r := charsSplitOn c rest
    if a = c then [] :: r
    else
      match r with
      | [] => [[a]]
      | g :: gs => (a :: g) :: gs

/-- Model of Python `str.split(sep)` for a one-character separator. -/
def splitOnChar (c : Char) (s : String) : List String :=
  (charsSplitOn c s.data).map (fun l => ⟨l⟩)

/-- Model of Python `url.split('#')[0]`: the prefix of the string before
the first `'#'` character (the whole string when none occurs). -/
def fragmentStrip (s : String) : String := ⟨s.data.takeWhile (fun c => c ≠ '#')⟩

/-- Model of Python `sep.join(items)`. -/
def joinSep (sep : String) : List String → String
  | [] => ""
  | [x] => x
  | x :: y :: xs => x ++ sep ++ joinSep sep (y :: xs)

/-!  ## The URL library boundary

`crawler.py` calls `urllib.parse.urljoin`, `urlparse(...).netloc`,
`urlparse(...).path` and `validators.url`.  These belong to external
libraries, so the embedding abstracts them as a record of functions; the
crawler definitions are parameterised over it. -/

/-- The slice of `urllib.parse` / `validators` that `crawler.py` uses. -/
structure UrlLib where
  urljoin : String → String → String
  netloc : String → String
  pathOf : String → String
  validUrl : String → Bool

/-- Helper for the concrete model: the characters after `"://"`, if the
string contains a scheme separator. -/
def afterScheme : List Char → Option (List Char)
  | ':' :: '/' :: '/' :: rest => some rest
  | _ :: rest => afterScheme rest
  | [] => none

/-- Concrete model of `urlparse(url).netloc`: the host part between
`"://"` and the next `'/'`. -/
def netlocOf (url : String) : String :=
  match afterScheme url.data with
  | some r => ⟨r.takeWhile (fun c => c ≠ '/')⟩
  | none => ""

/-- Concrete model of `urlparse(url).path`: from the first `'/'` after
the host up to (excluding) any query or fragment. -/
def pathOfModel (url : String) : String :=
  match afterScheme url.data with
  | some r => ⟨(r.dropWhile (fun c => c ≠ '/')).takeWhile (fun c => c ≠ '?' ∧ c ≠ '#')⟩
  | none => ""

/-- Concrete model of the scheme-and-host prefix of an absolute URL. -/
def schemeHost (url : String) : String :=
  ⟨url.data.takeWhile (fun c => c ≠ ':')⟩ ++ "://" ++ netlocOf url

/-- Concrete model of `urllib.parse.urljoin`: an absolute href is
returned as is; a root-relative href is attached to the base's host; any
other href replaces the last path segment of the base. -/
def urljoinModel (base href : String) : String :=
  if (afterScheme href.data).isSome then href
  else if strStartsWith href "/" then schemeHost base ++ href
  else ⟨(base.data.reverse.dropWhile (fun c => c ≠ '/')).reverse⟩ ++ href

/-- Concrete model of `validators.url`: an `http`/`https` scheme and a
non-empty host. -/
def validUrlModel (url : String) : Bool :=
  (strStartsWith url "http://" || strStartsWith url "https://") && netlocOf url ≠ ""

/-- The concrete URL-library model used to evaluate the crawler on
closed inputs. -/
def urlLibModel : UrlLib :=
  { urljoin := urljoinModel
    netloc := netlocOf
    pathOf := pathOfModel
    validUrl := validUrlModel }

/-!  ## Link classification (`WebCrawler._collect_links`, crawler.py 166-201) -/

/-- Outcome of classifying one raw href found on a page. -/
inductive LinkClass where
  | ignored
  | internal (url : String)
  | external (url : String)
deriving DecidableEq, Repr

/-- The per-href classification logic of `WebCrawler._collect_links`
(crawler.py lines 177-201): strip the href; ignore it when empty or when
it starts with `javascript:` or `#`; resolve it against the source page
URL; ignore it when `validators.url` rejects the result; compare the
resolved URL's host with the base domain.  The fragment is split off
(`absolute_url.split('#')[0]`) only on the same-domain branch, before
the visited-set check; the external branch records `absolute_url`
itself. -/
def classifyLink (lib : UrlLib) (base_domain rawHref source_url : String) : LinkClass :=
  let href := pyStrip rawHref
  if href = "" || strStartsWith href "javascript:" || strStartsWith href "#" then .ignored
  else
    let absolute_url := lib.urljoin source_url href
    if ¬ lib.validUrl absolute_url then .ignored
    else if lib.netloc absolute_url = base_domain then .internal (fragmentStrip absolute_url)
    else .external absolute_url

/-!  ## URL hierarchy (`WebCrawler._calculate_url_hierarchy`, crawler.py 283-314) -/

/-- The path-to-hierarchy computation of `_calculate_url_hierarchy`:
empty or root path gives `["/"]`; otherwise `path.rstrip('/')`, split on
`'/'`, drop empty segments, and prepend the root marker. -/
def hierarchyOfPath (path : String) : List String :=
  if path = "/" ∨ path = "" then ["/"]
  else
    let path := rstripChar '/' path
    let parts := splitOnChar '/' path
    "/" :: parts.filter (fun part => part ≠ "")

/-- `WebCrawler._calculate_url_hierarchy`: apply `hierarchyOfPath` to
`urlparse(url).path`. -/
def calculate_url_hierarchy (lib : UrlLib) (url : String) : List String :=
  hierarchyOfPath (lib.pathOf url)

/-!  ## Breadcrumb extraction (`WebCrawler._extract_breadcrumb`, crawler.py 203-281)

The BeautifulSoup queries (`find('nav', ...)`, `find_all('li')`,
`item.find('a')`, `get_text(strip=True)`, the Schema.org lookups) belong
to the external HTML library; the embedding abstracts a parsed page as
the results of exactly those queries.  All stored texts are the
already-stripped `get_text(strip=True)` values. -/

/-- One `li` element: the stripped text of its first anchor when an
anchor exists, and the stripped text of the `li` itself. -/
structure LiItem where
  linkText : Option String
  ownText : String
deriving DecidableEq, Repr

/-- A candidate breadcrumb container element: its `li` descendants, and
the stripped texts of its `a`/`span` descendants (used only when it has
no `li`). -/
structure NavElem where
  lis : List LiItem
  inlines : List String
deriving DecidableEq, Repr

/-- One element with `itemtype` Schema.org `BreadcrumbList`: the
stripped texts of its `itemprop="name"` descendants. -/
structure SchemaElem where
  names : List String
deriving DecidableEq, Repr

/-- A parsed page, abstracted as the results of the BeautifulSoup
queries `_extract_breadcrumb` performs: `find('nav',
attrs={'aria-label': 'breadcrumb'})`, `find('nav',
class_=has_breadcrumb_class)`, `find(['ol','ul'],
class_=has_breadcrumb_class)`, and `find_all(itemtype=BreadcrumbList)`
(both scheme variants already merged by the query). -/
structure Soup where
  navAria : Option NavElem
  navClass : Option NavElem
  breadcrumbList : Option NavElem
  schemas : List SchemaElem
deriving DecidableEq, Repr

/-- The separator glyphs filtered out in strategies 1 and 2
(`text not in ['>', '/', '»', '›']`). -/
def separatorGlyphs : List String := [">", "/", "»", "›"]

/-- The item filter of strategies 1 and 2: keep a text iff it is
non-empty and not a separator glyph. -/
def keepLabel (text : String) : Bool :=
  text ≠ "" && ¬ text ∈ separatorGlyphs

/-- Text taken from one `li`: the link text if a link exists, else the
item's own text (crawler.py lines 240-241). -/
def liText (item : LiItem) : String :=
  match item.linkText with
  | some t => t
  | none => item.ownText

/-- Strategy 1 (crawler.py lines 229-250): the `aria-label` nav, or else
the class-matched nav; within it the `li` items when any exist, else the
`a`/`span` texts; filtered by `keepLabel`. -/
def strategy1 (s : Soup) : List String :=
  match s.navAria <|> s.navClass with
  | none => []
  | some nav =>
    if nav.lis ≠ [] then (nav.lis.map liText).filter keepLabel
    else nav.inlines.filter keepLabel

/-- Strategy 2 (crawler.py lines 252-262): the class-matched `ol`/`ul`
element's `li` items, filtered by `keepLabel`. -/
def strategy2 (s : Soup) : List String :=
  match s.breadcrumbList with
  | none => []
  | some bl => (bl.lis.map liText).filter keepLabel

/-- Strategy 3 (crawler.py lines 264-279): every `itemprop="name"` text
of every Schema.org `BreadcrumbList` element, keeping non-empty texts,
with no separator filtering. -/
def strategy3 (s : Soup) : List String :=
  match s.schemas with
  | [] => []
  | schemas => (schemas.map (fun sc => sc.names.filter (fun t => t ≠ ""))).flatten

/-- `WebCrawler._extract_breadcrumb`: the accumulator `breadcrumb_items`
is filled by strategy 1, then by strategy 2 only when still empty, then
by strategy 3 only when still empty; `None` is returned when it ends
empty. -/
def extract_breadcrumb (s : Soup) : Option (List String) :=
  let items := strategy1 s
  let items := if items = [] then strategy2 s else items
  let items := if items = [] then strategy3 s else items
  if items = [] then none else some items

/-!  ## Page records and `compare_hierarchies` (hierarchy.py 52-100)

A page record is the `page_info` dict built in `_process_url`.
`hierarchy.py` reads most fields through `dict.get` with a default, so
the embedding makes those fields optional (`none` models both a missing
key and, for `breadcrumb`, the stored `None`, which the consuming code
treats identically to a missing key: only its truthiness and its
join-when-truthy are ever used); `url` and `title` are accessed by
direct indexing and are therefore required. -/

/-- A page record (`page_info` in `_process_url`, or any dict handed to
`hierarchy.py`). -/
structure Page where
  url : String
  title : String
  keywords : Option String := none
  description : Option String := none
  breadcrumb : Option (List String) := none
  breadcrumb_depth : Option Nat := none
  url_hierarchy : Option (List String) := none
  url_depth : Option Nat := none
  notes : Option String := none
deriving DecidableEq, Repr

/-- One row of `compare_hierarchies`' output. -/
structure CompareResult where
  url : String
  title : String
  url_hierarchy : String
  breadcrumb_hierarchy : String
  url_depth : Nat
  breadcrumb_depth : Nat
  depth_match : Option Bool
  has_breadcrumb : Bool
deriving DecidableEq, Repr

/-- The loop body of `compare_hierarchies` (hierarchy.py lines 76-98):
read the four optional fields with their defaults, join the hierarchies
to strings when truthy, set `depth_match` to `None` when the breadcrumb
is falsy and to the depth equality otherwise, and set `has_breadcrumb`
to the breadcrumb's truthiness. -/
def compareOne (page : Page) : CompareResult :=
  let url_hierarchy := page.url_hierarchy.getD []
  let breadcrumb := page.breadcrumb.getD []
  let url_depth := page.url_depth.getD 0
  let breadcrumb_depth := page.breadcrumb_depth.getD 0
  let url_hierarchy_str := if url_hierarchy ≠ [] then joinSep " > " url_hierarchy else ""
  let breadcrumb_hierarchy_str := if breadcrumb ≠ [] then joinSep " > " breadcrumb else ""
  { url := page.url
    title := page.title
    url_hierarchy := url_hierarchy_str
    breadcrumb_hierarchy := breadcrumb_hierarchy_str
    url_depth := url_depth
    breadcrumb_depth := breadcrumb_depth
    depth_match := if breadcrumb ≠ [] then some (decide (url_depth = breadcrumb_depth)) else none
    has_breadcrumb := breadcrumb ≠ [] }

/-- `compare_hierarchies` (hierarchy.py lines 52-100): start from an
empty result list and append one row per page, in input order. -/
def compare_hierarchies (pages : List Page) : List CompareResult :=
  pages.foldl (fun comparison_results page => comparison_results ++ [compareOne page]) []

/-!  ## Hierarchy tree build (`build_hierarchy_tree`, hierarchy.py 5-49)

The Python tree is a dict from segment strings to
`{'_pages': [...], '_children': {...}}` nodes; dicts preserve insertion
order, so a node map is embedded as an association list in insertion
order. -/

/-- A lightweight page reference `{url, title, depth}` appended to a
node's `_pages` list. -/
structure PageRef where
  url : String
  title : String
  depth : Nat
deriving DecidableEq, Repr

/-- The hierarchy tree: an insertion-ordered map from a segment string
to the node's `_pages` list and `_children` subtree. -/
inductive HTree where
  | mk (entries : List (String × List PageRef × HTree))

/-- First-match lookup in an insertion-ordered association list
(Python `item in current` / `current[item]`; keys are unique in a
dict, so first-match agrees with the dict). -/
def lookupEntry {α : Type} : List (String × α) → String → Option α
  | [], _ => none
  | (k, v) :: es, seg => if k = seg then some v else lookupEntry es seg

/-- Replace the value at the first occurrence of a key, keeping
insertion order (Python's in-place update of `current[item]`). -/
def replaceEntry {α : Type} : List (String × α) → String → α → List (String × α)
  | [], _, _ => []
  | (k, v) :: es, seg, nv => if k = seg then (k, nv) :: es else (k, v) :: replaceEntry es seg nv

/-- The inner loop of `build_hierarchy_tree` (hierarchy.py lines 35-47)
for one page: walk the remaining hierarchy segments, creating a node on
first visit, appending the `{url, title, depth := level}` reference to
the node's `_pages`, and descending into `_children`. -/
def insertHier (u ti : String) : Nat → HTree → List String → HTree
  | _, t, [] => t
  | level, .mk es, item :: rest =>
    match lookupEntry es item with
    | some (ps, child) =>
        .mk (replaceEntry es item (ps ++ [⟨u, ti, level⟩], insertHier u ti (level + 1) child rest))
    | none =>
        .mk (es ++ [(item, ([⟨u, ti, level⟩], insertHier u ti (level + 1) (.mk []) rest))])

/-- The hierarchy sequence `build_hierarchy_tree` reads for one page:
`url_hierarchy` for `'url'`, `breadcrumb` for `'breadcrumb'`; any other
kind skips the page, exactly as a falsy hierarchy does (hierarchy.py
lines 24-31). -/
def hierOf (hierarchy_type : String) (page : Page) : List String :=
  if hierarchy_type = "url" then page.url_hierarchy.getD []
  else if hierarchy_type = "breadcrumb" then page.breadcrumb.getD []
  else []

/-- `build_hierarchy_tree` (hierarchy.py lines 5-49): start from the
empty tree and insert each page's hierarchy in input order, skipping
pages whose hierarchy of the requested kind is falsy. -/
def build_hierarchy_tree (pages : List Page) (hierarchy_type : String) : HTree :=
  pages.foldl
    (fun tree page =>
      let hierarchy := hierOf hierarchy_type page
      if hierarchy = [] then tree else insertHier page.url page.title 0 tree hierarchy)
    (.mk [])

/-- The `_pages` list of the node reached by following a non-empty
segment path from the root (`[]` when no such node exists). -/
def pagesAt : HTree → List String → List PageRef
  | _, [] => []
  | .mk es, seg :: rest =>
    match lookupEntry es seg with
    | none => []
    | some (ps, child) => if rest = [] then ps else pagesAt child rest

/-- Whether a node exists at a given non-empty segment path. -/
def existsAt : HTree → List String → Bool
  | _, [] => false
  | .mk es, seg :: rest =>
    match lookupEntry es seg with
    | none => false
    | some (_, child) => if rest = [] then true else existsAt child rest

/-- The references a single page contributes to the node at `path` when
its remaining hierarchy is `hier` and the current level is `level`: one
reference `⟨u, ti, level-of-the-node⟩` exactly when `path` follows
`hier`, nothing otherwise. -/
def contribAux (u ti : String) : Nat → List String → List String → List PageRef
  | _, _, [] => []
  | level, hier, seg :: rest =>
    match hier with
    | [] => []
    | hseg :: hrest =>
      if hseg = seg then
        if rest = [] then [⟨u, ti, level⟩] else contribAux u ti (level + 1) hrest rest
      else []

/-- The concatenated contributions of a page list to the node at `path`,
in input order. -/
def contribsAll (hierarchy_type : String) (path : List String) : List Page → List PageRef
  | [] => []
  | page :: pages =>
      contribAux page.url page.title 0 (hierOf hierarchy_type page) path
        ++ contribsAll hierarchy_type path pages

/-!  ## The page analyzer and crawl state (`_process_url`, crawler.py 98-164)

`requests.get` and the network are external; one fetch is abstracted as
either an exception (covering I/O, timeout and parse errors raised
inside the `try` block before any record is written) or a response with
a status code and a parsed document.  The parsed document is abstracted
as the query results the analyzer reads. -/

/-- The pieces `_process_url` reads from a parsed response: the title
text (if a `<title>` exists), the `content` of the keywords and
description meta tags (when the tag exists and has a `content` entry),
the breadcrumb-relevant queries, and the stripped `href` of every
`<a href=...>` in document order. -/
structure FetchedDoc where
  titleText : Option String
  metaKeywords : Option String
  metaDescription : Option String
  soup : Soup
  hrefs : List String

/-- One fetch of a URL: an exception, or a response with status code and
parsed document. -/
inductive Fetched where
  | exn
  | resp (status : Nat) (doc : FetchedDoc)

/-- The crawler's mutable collections (`WebCrawler.__init__`): the
visited set, the URL queue (FIFO: `put` appends, `get` pops the head),
and the three result lists.  The visited set is modelled as a list in
insertion order; only membership and size are ever used. -/
structure CrawlState where
  visited_urls : List String := []
  url_queue : List (String × String) := []
  pages : List Page := []
  external_links : List (String × String) := []
  broken_links : List (String × String) := []
deriving Repr

/-- The loop body of `_collect_links` for one raw href (crawler.py lines
177-201): classify it; drop it when ignored; for a same-domain URL,
enqueue `(clean_url, source_url)` unless the clean URL is already
visited; for an external URL, record `(absolute_url, source_url)`. -/
def collectOne (lib : UrlLib) (base_domain source_url : String) (st : CrawlState)
    (href : String) : CrawlState :=
  match classifyLink lib base_domain href source_url with
  | .ignored => st
  | .internal clean_url =>
      if clean_url ∈ st.visited_urls then st
      else { st with url_queue := st.url_queue ++ [(clean_url, source_url)] }
  | .external absolute_url =>
      { st with external_links := st.external_links ++ [(absolute_url, source_url)] }

/-- `_collect_links` (crawler.py lines 166-201): process every href of
the page in document order. -/
def collect_links (lib : UrlLib) (base_domain : String) (hrefs : List String)
    (source_url : String) (st : CrawlState) : CrawlState :=
  hrefs.foldl (fun st href => collectOne lib base_domain source_url st href) st

/-- The page record `_process_url` assembles for a successfully fetched
page (crawler.py lines 121-153). -/
def analyzePage (lib : UrlLib) (url : String) (doc : FetchedDoc) : Page :=
  let breadcrumb := extract_breadcrumb doc.soup
  let url_hierarchy := calculate_url_hierarchy lib url
  { url := url
    title := match doc.titleText with | some t => t | none => "No Title"
    keywords := some (doc.metaKeywords.getD "")
    description := some (doc.metaDescription.getD "")
    breadcrumb := breadcrumb
    breadcrumb_depth := some (match breadcrumb with | some b => b.length | none => 0)
    url_hierarchy := some url_hierarchy
    url_depth := some url_hierarchy.length
    notes := some "" }

/-- `_process_url` (crawler.py lines 98-164): an exception anywhere in
the `try` block, or a non-200 status, appends exactly one broken-link
record `(url, source_url)` and nothing else; otherwise the page record
is appended and the page's links are collected (with the current `url`
as their source). -/
def process_url (lib : UrlLib) (base_domain : String) (fetched : Fetched)
    (url source_url : String) (st : CrawlState) : CrawlState :=
  match fetched with
  | .exn => { st with broken_links := st.broken_links ++ [(url, source_url)] }
  | .resp status doc =>
    if status ≠ 200 then { st with broken_links := st.broken_links ++ [(url, source_url)] }
    else
      let page := analyzePage lib url doc
      let st := { st with pages := st.pages ++ [page] }
      collect_links lib base_domain doc.hrefs url st

/-- The truthiness-guarded page cap of `start_crawl` (crawler.py line
81): `if self.max_pages and len(self.visited_urls) >= self.max_pages`. -/
def maxReached (max_pages : Option Nat) (visitedCount : Nat) : Bool :=
  match max_pages with
  | none => false
  | some m => m ≠ 0 && visitedCount ≥ m

/-- A crawl configuration: the URL library, the seed URL, the page cap,
and the world — the fetch outcome each URL would produce. -/
structure CrawlConfig where
  lib : UrlLib
  base_url : String
  max_pages : Option Nat := none
  world : String → Fetched

/-- `self.base_domain = urlparse(base_url).netloc` (crawler.py line 32). -/
def CrawlConfig.base_domain (cfg : CrawlConfig) : String := cfg.lib.netloc cfg.base_url

/-- One iteration of the `start_crawl` loop (crawler.py lines 65-93) in
the sequential interleaving model, where a dispatched task runs to
completion before the next iteration: pop the head of the queue (`none`
models leaving the loop); skip an already-visited URL; stop when the
page cap is reached; otherwise add the URL to the visited set and run
`_process_url` on it. -/
def crawlStep (cfg : CrawlConfig) (st : CrawlState) : Option CrawlState :=
  match st.url_queue with
  | [] => none
  | (current_url, source_url) :: rest =>
    if current_url ∈ st.visited_urls then some { st with url_queue := rest }
    else if maxReached cfg.max_pages st.visited_urls.length then none
    else
      let st := { st with url_queue := rest, visited_urls := st.visited_urls ++ [current_url] }
      some (process_url cfg.lib cfg.base_domain (cfg.world current_url) current_url source_url st)

/-- The `start_crawl` loop, fuel-indexed: iterate `crawlStep` until it
signals completion or the fuel runs out. -/
def crawlLoop (cfg : CrawlConfig) : Nat → CrawlState → CrawlState
  | 0, st => st
  | fuel + 1, st =>
    match crawlStep cfg st with
    | none => st
    | some st' => crawlLoop cfg fuel st'

/-- `start_crawl` (crawler.py lines 58-96) in the sequential model: seed
the queue with `(base_url, base_url)` and run the loop. -/
def start_crawl (cfg : CrawlConfig) (fuel : Nat) : CrawlState :=
  crawlLoop cfg fuel { url_queue := [(cfg.base_url, cfg.base_url)] }

/-!  ## The concurrent scheduler as a transition system (crawler.py 58-96)

For the termination claim the scheduler loop is modelled as a small-step
interleaved transition system.  The scheduler thread's program counter
distinguishes the point between catching `Empty` from
`url_queue.get(timeout=5)` and evaluating
`all(future.done() for future in futures)` — in the source these are two
separate observations, and worker effects can interleave between them.
An in-flight task is modelled by the queue `put`s it still has to
perform (its other effects — the lock-guarded appends to the result
lists — never interact with the loop's control flow); a finished future
is modelled by removing the task.  Dispatching a URL spawns the task
effects `cfg.spawn` assigns to it; the `clean_url not in
self.visited_urls` test of `_collect_links` is evaluated at `put` time,
as in the source. -/

/-- Why the scheduler loop ended: the empty-queue-and-all-done branch
(crawler.py lines 69-72) or the page-cap branch (lines 81-83). -/
inductive ConcludeReason where
  | emptyDone
  | maxPages
deriving DecidableEq, Repr

/-- The scheduler thread's position: about to `get` from the queue, or
between the `Empty` exception and the `all(future.done())` check. -/
inductive SchedPhase where
  | atGet
  | afterEmpty
deriving DecidableEq, Repr

/-- Configuration of the interleaved model: the page cap and, for each
dispatched `(url, source_url)`, the list of `(clean_url, source_url)`
entries its `_process_url` run will try to enqueue, in order. -/
structure SchedConfig where
  max_pages : Option Nat := none
  spawn : String → String → List (String × String)

/-- A state of the interleaved scheduler model. -/
structure SchedState where
  queue : List (String × String)
  visited : List String
  tasks : List (List (String × String))
  phase : SchedPhase
  concluded : Option ConcludeReason
deriving Repr

/-- The initial state: the queue seeded with `(base_url, base_url)`
(crawler.py line 60), nothing visited, no tasks, scheduler at `get`. -/
def schedInit (base_url : String) : SchedState :=
  { queue := [(base_url, base_url)]
    visited := []
    tasks := []
    phase := .atGet
    concluded := none }

/-- One atomic step of the interleaved scheduler model.  Scheduler
steps: pop-and-skip a visited URL (lines 76-78), pop-and-break at the
page cap (lines 81-83), pop-and-dispatch (lines 86-90), observe the
queue empty (the `Empty` exception, line 69), then either break because
every future is done (lines 71-72) or continue (line 73).  Worker steps:
perform the next queue `put` of an in-flight task — dropped when the
clean URL is already visited (lines 196-197) — or finish, making the
task's future done. -/
inductive SchedStep (cfg : SchedConfig) : SchedState → SchedState → Prop where
  | popVisited (st : SchedState) (u s : String) (rest : List (String × String)) :
      st.concluded = none → st.phase = .atGet → st.queue = (u, s) :: rest →
      u ∈ st.visited →
      SchedStep cfg st { st with queue := rest }
  | popMax (st : SchedState) (u s : String) (rest : List (String × String)) :
      st.concluded = none → st.phase = .atGet → st.queue = (u, s) :: rest →
      u ∉ st.visited → maxReached cfg.max_pages st.visited.length = true →
      SchedStep cfg st { st with queue := rest, concluded := some .maxPages }
  | popDispatch (st : SchedState) (u s : String) (rest : List (String × String)) :
      st.concluded = none → st.phase = .atGet → st.queue = (u, s) :: rest →
      u ∉ st.visited → maxReached cfg.max_pages st.visited.length = false →
      SchedStep cfg st
        { st with
            queue := rest
            visited := st.visited ++ [u]
            tasks := st.tasks ++ [cfg.spawn u s] }
  | observeEmpty (st : SchedState) :
      st.concluded = none → st.phase = .atGet → st.queue = [] →
      SchedStep cfg st { st with phase := .afterEmpty }
  | allDone (st : SchedState) :
      st.concluded = none → st.phase = .afterEmpty → st.tasks = [] →
      SchedStep cfg st { st with concluded := some .emptyDone }
  | notAllDone (st : SchedState) :
      st.concluded = none → st.phase = .afterEmpty → st.tasks ≠ [] →
      SchedStep cfg st { st with phase := .atGet }
  | taskPutVisited (st : SchedState) (pre : List (List (String × String)))
      (e : String × String) (rest : List (String × String))
      (post : List (List (String × String))) :
      st.concluded = none → st.tasks = pre ++ (e :: rest) :: post →
      e.1 ∈ st.visited →
      SchedStep cfg st { st with tasks := pre ++ rest :: post }
  | taskPutNew (st : SchedState) (pre : List (List (String × String)))
      (e : String × String) (rest : List (String × String))
      (post : List (List (String × String))) :
      st.concluded = none → st.tasks = pre ++ (e :: rest) :: post →
      e.1 ∉ st.visited →
      SchedStep cfg st { st with queue := st.queue ++ [e], tasks := pre ++ rest :: post }
  | taskFinish (st : SchedState) (pre post : List (List (String × String))) :
      st.concluded = none → st.tasks = pre ++ [] :: post →
      SchedStep cfg st { st with tasks := pre ++ post }

/-- Reachability in the interleaved scheduler model. -/
def SchedReaches (cfg : SchedConfig) : SchedState → SchedState → Prop :=
  Relation.ReflTransGen (SchedStep cfg)

/-!  ## Concrete evaluation inputs

Closed values used to evaluate the definitions above on concrete
inputs. -/

/-- A parsed document with no title, no meta tags, no breadcrumb markup
and no links. -/
def docEmpty : FetchedDoc :=
  { titleText := none
    metaKeywords := none
    metaDescription := none
    soup := { navAria := none, navClass := none, breadcrumbList := none, schemas := [] }
    hrefs := [] }

/-- A parsed page whose `aria-label` breadcrumb nav holds the items
ホーム, a bare `>` separator, and 製品. -/
def soupW : Soup :=
  { navAria := some
      { lis :=
          [ { linkText := some "ホーム", ownText := "ホーム" }
          , { linkText := none, ownText := ">" }
          , { linkText := some "製品", ownText := "製品" } ]
        inlines := [] }
    navClass := none
    breadcrumbList := none
    schemas := [] }

/-- An interleaved-scheduler configuration in which processing the seed
page enqueues one newly discovered internal link. -/
def cfgRace : SchedConfig :=
  { max_pages := none
    spawn := fun u _ =>
      if u = "https://a.com/" then [("https://a.com/p", "https://a.com/")] else [] }

/-- The state in which the race trace concludes: the scheduler took the
empty-queue-and-all-done exit while a link enqueued between the two
observations is still pending. -/
def sRace : SchedState :=
  { queue := [("https://a.com/p", "https://a.com/")]
    visited := ["https://a.com/"]
    tasks := []
    phase := .afterEmpty
    concluded := some .emptyDone }

/-!  ## Claim C2 — the URL Hierarchy Calculator -/

/-- Claim C2: the URL Hierarchy Calculator is a total function of the
URL: a URL whose path component is empty or exactly `/` gives exactly
`["/"]`; otherwise trailing slashes are stripped, the path is split on
`/`, empty segments are discarded and `/` is prepended, so `/products`
gives `["/", "products"]`, `/products/` gives the identical result, and
`/products/electronics/phones` gives
`["/", "products", "electronics", "phones"]`; and for every URL the
result is non-empty with first element `/`. -/
theorem claim_c2 :
    (∀ (lib : UrlLib) (url : String),
        calculate_url_hierarchy lib url = hierarchyOfPath (lib.pathOf url)) ∧
    hierarchyOfPath "" = ["/"] ∧
    hierarchyOfPath "/" = ["/"] ∧
    hierarchyOfPath "/products" = ["/", "products"] ∧
    hierarchyOfPath "/products/" = hierarchyOfPath "/products" ∧
    hierarchyOfPath "/products/electronics/phones"
      = ["/", "products", "electronics", "phones"] ∧
    ∀ (path : String), (hierarchyOfPath path).head? = some "/" := by
  refine ⟨fun _ _ => rfl, by decide, by decide, by decide, by decide, by decide, ?_⟩
  intro path
  unfold hierarchyOfPath
  split <;> rfl

/-!  ## Claims C10 and C4 — `compare_hierarchies` -/

/-- The accumulator of `compare_hierarchies` only ever grows by mapped
rows. -/
theorem compare_hierarchies_foldl (pages : List Page) :
    ∀ acc : List CompareResult,
      pages.foldl (fun comparison_results page => comparison_results ++ [compareOne page]) acc
        = acc ++ pages.map compareOne := by
  induction pages with
  | nil => simp
  | cons p ps ih => intro acc; simp [ih]

/-- `compare_hierarchies` is the row map over the input pages. -/
theorem compare_hierarchies_eq_map (pages : List Page) :
    compare_hierarchies pages = pages.map compareOne := by
  simpa using compare_hierarchies_foldl pages []

/-- Claim C10: for every list of page records that each carry at least a
url and a title, `compare_hierarchies` is total, returns a list of
exactly the input's length whose i-th entry is derived from the i-th
input page, and missing `url_hierarchy`, `breadcrumb`, `url_depth` or
`breadcrumb_depth` fields default to empty/zero values rather than
raising. -/
theorem claim_c10 :
    (∀ pages : List Page, (compare_hierarchies pages).length = pages.length) ∧
    (∀ (pages : List Page) (i : Nat),
        (compare_hierarchies pages)[i]? = (pages[i]?).map compareOne) ∧
    (∀ u ti : String,
        compareOne { url := u, title := ti }
          = { url := u, title := ti, url_hierarchy := "", breadcrumb_hierarchy := ""
              url_depth := 0, breadcrumb_depth := 0, depth_match := none
              has_breadcrumb := false }) := by
  refine ⟨?_, ?_, ?_⟩
  · intro pages; rw [compare_hierarchies_eq_map]; simp
  · intro pages i; rw [compare_hierarchies_eq_map]; simp [List.getElem?_map]
  · intro u ti; rfl

/-- Claim C4: for every page record, `depth_match` is the distinguished
not-applicable value (`None`) exactly when the page has no breadcrumb
(absent or empty), and otherwise the boolean equality of `url_depth` and
`breadcrumb_depth`; `has_breadcrumb` is true exactly when the breadcrumb
field is present and non-empty, and `depth_match` is never a boolean
when `has_breadcrumb` is false. -/
theorem claim_c4 :
    ∀ page : Page,
      ((compareOne page).has_breadcrumb = true ↔ page.breadcrumb.getD [] ≠ []) ∧
      ((compareOne page).depth_match = none ↔ (compareOne page).has_breadcrumb = false) ∧
      ((compareOne page).has_breadcrumb = true →
        (compareOne page).depth_match
          = some (decide (page.url_depth.getD 0 = page.breadcrumb_depth.getD 0))) := by
  intro page
  by_cases h : page.breadcrumb.getD [] = [] <;>
    simp [compareOne, h]

/-- Witness for claim C4 at a concrete page with a two-item breadcrumb,
`url_depth = 2` and `breadcrumb_depth = 2`. -/
theorem claim_c4_witness :
    (compareOne
        { url := "https://a.com/p", title := "P"
          breadcrumb := some ["ホーム", "製品"], breadcrumb_depth := some 2
          url_hierarchy := some ["/", "p"], url_depth := some 2 }).depth_match
      = some (decide
          (({ url := "https://a.com/p", title := "P"
              breadcrumb := some ["ホーム", "製品"], breadcrumb_depth := some 2
              url_hierarchy := some ["/", "p"], url_depth := some 2 } : Page).url_depth.getD 0
            = ({ url := "https://a.com/p", title := "P"
                 breadcrumb := some ["ホーム", "製品"], breadcrumb_depth := some 2
                 url_hierarchy := some ["/", "p"], url_depth := some 2 } : Page).breadcrumb_depth.getD 0)) :=
  (claim_c4 _).2.2 (by decide)

/-!  ## Claim C3 — failure handling in `_process_url` -/

/-- Claim C3: for every dispatched URL, a non-200 status or a fetch or
parse exception makes `_process_url` append exactly one broken-link
record `(url, source_url)` and leave every other collection — in
particular the page list — unchanged; the function is total, so nothing
is raised to the scheduler. -/
theorem claim_c3 :
    ∀ (lib : UrlLib) (base_domain url source_url : String) (st : CrawlState),
      (process_url lib base_domain .exn url source_url st
          = { st with broken_links := st.broken_links ++ [(url, source_url)] }) ∧
      ∀ (status : Nat) (doc : FetchedDoc), status ≠ 200 →
        process_url lib base_domain (.resp status doc) url source_url st
          = { st with broken_links := st.broken_links ++ [(url, source_url)] } := by
  intro lib base_domain url source_url st
  refine ⟨rfl, ?_⟩
  intro status doc h
  simp [process_url, h]

/-- Witness for claim C3 at status 404 on the empty crawl state. -/
theorem claim_c3_witness :
    process_url urlLibModel "a.com" (.resp 404 docEmpty) "https://a.com/x" "https://a.com/" {}
      = { ({} : CrawlState) with
            broken_links := ({} : CrawlState).broken_links ++ [("https://a.com/x", "https://a.com/")] } :=
  (claim_c3 urlLibModel "a.com" "https://a.com/x" "https://a.com/" {}).2 404 docEmpty (by decide)

/-!  ## Claim C1 — the Link Classifier -/

/-- Counterexample to claim C1: a cross-domain href carrying a fragment
is recorded as an External Link Record with the fragment intact —
`_collect_links` performs `absolute_url.split('#')[0]` only on the
same-domain branch. -/
theorem claim_c1_counterexample :
    collectOne urlLibModel "a.com" "https://a.com/" {} "https://b.com/p#frag"
      = { ({} : CrawlState) with external_links := [("https://b.com/p#frag", "https://a.com/")] } ∧
    fragmentStrip "https://b.com/p#frag" ≠ "https://b.com/p#frag" := by
  exact ⟨rfl, by decide⟩

/-- Claim C1 as amended: an empty href or one beginning with
`javascript:` or `#` (after stripping) is ignored; otherwise the href is
resolved against the source page URL and ignored when not syntactically
valid; the resolved URL is classified Internal when its host equals the
base domain exactly and External otherwise; the fragment suffix is
stripped only from Internal URLs, while an External Link Record stores
the resolved URL with any fragment retained. -/
theorem claim_c1_amended :
    ∀ (lib : UrlLib) (base_domain rawHref source_url : String),
      (pyStrip rawHref = ""
          ∨ strStartsWith (pyStrip rawHref) "javascript:" = true
          ∨ strStartsWith (pyStrip rawHref) "#" = true →
        classifyLink lib base_domain rawHref source_url = .ignored) ∧
      (pyStrip rawHref ≠ "" →
        strStartsWith (pyStrip rawHref) "javascript:" = false →
        strStartsWith (pyStrip rawHref) "#" = false →
        (lib.validUrl (lib.urljoin source_url (pyStrip rawHref)) = false →
            classifyLink lib base_domain rawHref source_url = .ignored) ∧
        (lib.validUrl (lib.urljoin source_url (pyStrip rawHref)) = true →
          (lib.netloc (lib.urljoin source_url (pyStrip rawHref)) = base_domain →
              classifyLink lib base_domain rawHref source_url
                = .internal (fragmentStrip (lib.urljoin source_url (pyStrip rawHref)))) ∧
          (lib.netloc (lib.urljoin source_url (pyStrip rawHref)) ≠ base_domain →
              classifyLink lib base_domain rawHref source_url
                = .external (lib.urljoin source_url (pyStrip rawHref))))) := by
  intro lib base_domain rawHref source_url
  constructor
  · intro h
    rcases h with h | h | h <;> simp [classifyLink, h]
  · intro h1 h2 h3
    constructor
    · intro hv; simp [classifyLink, h1, h2, h3, hv]
    · intro hv
      constructor
      · intro hd; simp [classifyLink, h1, h2, h3, hv, hd]
      · intro hd; simp [classifyLink, h1, h2, h3, hv, hd]

/-- Witness for the amended claim C1 on the external branch, at a
concrete cross-domain href with a fragment. -/
theorem claim_c1_amended_witness :
    classifyLink urlLibModel "a.com" "https://b.com/p#frag" "https://a.com/"
      = .external (urlLibModel.urljoin "https://a.com/" (pyStrip "https://b.com/p#frag")) :=
  (((claim_c1_amended urlLibModel "a.com" "https://b.com/p#frag" "https://a.com/").2
      (by decide) (by decide) (by decide)).2 (by decide)).2 (by decide)

/-!  ## Claim C5 — the Breadcrumb Extractor -/

/-- Claim C5: the Breadcrumb Extractor tries its three strategies
strictly in order, the first strategy yielding a non-empty item list
wins with no merging across strategies; strategies 1 and 2 discard every
item whose trimmed text is empty or one of `>`, `/`, `»`, `›`; and the
result is `None` exactly when all three strategies yield zero items, and
otherwise the winning strategy's ordered label list. -/
theorem claim_c5 :
    ∀ s : Soup,
      (strategy1 s ≠ [] → extract_breadcrumb s = some (strategy1 s)) ∧
      (strategy1 s = [] → strategy2 s ≠ [] → extract_breadcrumb s = some (strategy2 s)) ∧
      (strategy1 s = [] → strategy2 s = [] → strategy3 s ≠ [] →
        extract_breadcrumb s = some (strategy3 s)) ∧
      (extract_breadcrumb s = none ↔
        strategy1 s = [] ∧ strategy2 s = [] ∧ strategy3 s = []) ∧
      (∀ label ∈ strategy1 s, label ≠ "" ∧ label ∉ separatorGlyphs) ∧
      (∀ label ∈ strategy2 s, label ≠ "" ∧ label ∉ separatorGlyphs) := by
  intro s
  have keep : ∀ (l : List String) (label : String),
      label ∈ l.filter keepLabel → label ≠ "" ∧ label ∉ separatorGlyphs := by
    intro l label hmem
    have h := List.of_mem_filter hmem
    simp only [keepLabel, Bool.and_eq_true, decide_eq_true_eq] at h
    exact ⟨h.1, by simpa using h.2⟩
  refine ⟨?_, ?_, ?_, ?_, ?_, ?_⟩
  · intro h1; simp [extract_breadcrumb, h1]
  · intro h1 h2; simp [extract_breadcrumb, h1, h2]
  · intro h1 h2 h3; simp [extract_breadcrumb, h1, h2, h3]
  · constructor
    · intro h
      by_cases h1 : strategy1 s = []
      · by_cases h2 : strategy2 s = []
        · by_cases h3 : strategy3 s = []
          · exact ⟨h1, h2, h3⟩
          · simp [extract_breadcrumb, h1, h2, h3] at h
        · simp [extract_breadcrumb, h1, h2] at h
      · simp [extract_breadcrumb, h1] at h
    · rintro ⟨h1, h2, h3⟩; simp [extract_breadcrumb, h1, h2, h3]
  · intro label hmem
    unfold strategy1 at hmem
    rcases hnav : (s.navAria <|> s.navClass) with _ | nav <;> rw [hnav] at hmem
    · simp at hmem
    · have hmem' : label ∈ (if nav.lis ≠ [] then (nav.lis.map liText).filter keepLabel
          else nav.inlines.filter keepLabel) := hmem
      by_cases hl : nav.lis ≠ []
      · rw [if_pos hl] at hmem'; exact keep _ _ hmem'
      · rw [if_neg hl] at hmem'; exact keep _ _ hmem'
  · intro label hmem
    unfold strategy2 at hmem
    rcases hbl : s.breadcrumbList with _ | bl <;> rw [hbl] at hmem
    · simp at hmem
    · exact keep _ _ hmem

/-- Witness for claim C5: on a concrete page whose `aria-label` nav
holds ホーム, a separator `>`, and 製品, strategy 1 wins and the
extractor returns its labels. -/
theorem claim_c5_witness :
    extract_breadcrumb soupW = some (strategy1 soupW) :=
  (claim_c5 soupW).1 (by decide)

/-!  ## Claim C6 — dedup and page-URL uniqueness -/

/-- `_collect_links`' per-href step touches only the queue and the
external-link list. -/
theorem collectOne_pages_visited (lib : UrlLib) (base_domain source_url : String)
    (st : CrawlState) (href : String) :
    (collectOne lib base_domain source_url st href).pages = st.pages ∧
    (collectOne lib base_domain source_url st href).visited_urls = st.visited_urls := by
  unfold collectOne
  rcases classifyLink lib base_domain href source_url with _ | clean_url | absolute_url
  · exact ⟨rfl, rfl⟩
  · by_cases h : clean_url ∈ st.visited_urls <;> simp [h]
  · exact ⟨rfl, rfl⟩

/-- `_collect_links` touches only the queue and the external-link
list. -/
theorem collect_links_pages_visited (lib : UrlLib) (base_domain source_url : String) :
    ∀ (hrefs : List String) (st : CrawlState),
      (collect_links lib base_domain hrefs source_url st).pages = st.pages ∧
      (collect_links lib base_domain hrefs source_url st).visited_urls = st.visited_urls := by
  intro hrefs
  induction hrefs with
  | nil => intro st; exact ⟨rfl, rfl⟩
  | cons href rest ih =>
    intro st
    have h1 := collectOne_pages_visited lib base_domain source_url st href
    have h2 := ih (collectOne lib base_domain source_url st href)
    exact ⟨h2.1.trans h1.1, h2.2.trans h1.2⟩

/-- `_process_url` never touches the visited set, and appends at most
one page record, whose `url` field is the processed URL. -/
theorem process_url_pages (lib : UrlLib) (base_domain : String) (fetched : Fetched)
    (url source_url : String) (st : CrawlState) :
    (process_url lib base_domain fetched url source_url st).visited_urls = st.visited_urls ∧
    ((process_url lib base_domain fetched url source_url st).pages = st.pages ∨
      ∃ page : Page, page.url = url ∧
        (process_url lib base_domain fetched url source_url st).pages = st.pages ++ [page]) := by
  rcases fetched with _ | ⟨status, doc⟩
  · exact ⟨rfl, .inl rfl⟩
  · by_cases h : status ≠ 200
    · simp [process_url, h]
    · have hcl := collect_links_pages_visited lib base_domain url doc.hrefs
        { st with pages := st.pages ++ [analyzePage lib url doc] }
      refine ⟨?_, .inr ⟨analyzePage lib url doc, rfl, ?_⟩⟩
      · simpa [process_url, h] using hcl.2
      · simpa [process_url, h] using hcl.1

/-- Unfolding one scheduler iteration when the queue is non-empty. -/
theorem crawlStep_cons (cfg : CrawlConfig) (st : CrawlState) (current_url source_url : String)
    (rest : List (String × String)) (hq : st.url_queue = (current_url, source_url) :: rest) :
    crawlStep cfg st =
      if current_url ∈ st.visited_urls then some { st with url_queue := rest }
      else if maxReached cfg.max_pages st.visited_urls.length then none
      else some (process_url cfg.lib cfg.base_domain (cfg.world current_url) current_url
        source_url { st with url_queue := rest, visited_urls := st.visited_urls ++ [current_url] }) := by
  unfold crawlStep; rw [hq]

/-- Unfolding the per-href link collection when the href classifies as
internal. -/
theorem collectOne_internal (lib : UrlLib) (base_domain source_url : String) (st : CrawlState)
    (href clean_url : String)
    (hcl : classifyLink lib base_domain href source_url = .internal clean_url) :
    collectOne lib base_domain source_url st href =
      if clean_url ∈ st.visited_urls then st
      else { st with url_queue := st.url_queue ++ [(clean_url, source_url)] } := by
  unfold collectOne; rw [hcl]

/-- One scheduler iteration preserves the invariant that page-record
URLs are distinct and all lie in the visited set. -/
theorem crawlStep_inv (cfg : CrawlConfig) (st st' : CrawlState)
    (hstep : crawlStep cfg st = some st')
    (h1 : (st.pages.map Page.url).Nodup)
    (h2 : ∀ page ∈ st.pages, page.url ∈ st.visited_urls) :
    (st'.pages.map Page.url).Nodup ∧ ∀ page ∈ st'.pages, page.url ∈ st'.visited_urls := by
  rcases hq : st.url_queue with _ | ⟨⟨current_url, source_url⟩, rest⟩
  · unfold crawlStep at hstep; rw [hq] at hstep; exact absurd hstep (by simp)
  · rw [crawlStep_cons cfg st current_url source_url rest hq] at hstep
    by_cases hv : current_url ∈ st.visited_urls
    · rw [if_pos hv] at hstep
      obtain rfl : { st with url_queue := rest } = st' := Option.some.inj hstep
      exact ⟨h1, h2⟩
    · rw [if_neg hv] at hstep
      by_cases hm : maxReached cfg.max_pages st.visited_urls.length
      · rw [if_pos hm] at hstep; exact absurd hstep (by simp)
      · rw [if_neg hm] at hstep
        obtain rfl := Option.some.inj hstep
        set stMid : CrawlState :=
          { st with url_queue := rest, visited_urls := st.visited_urls ++ [current_url] } with hmid
        have hp := process_url_pages cfg.lib cfg.base_domain (cfg.world current_url)
          current_url source_url stMid
        have hvis : (process_url cfg.lib cfg.base_domain (cfg.world current_url)
            current_url source_url stMid).visited_urls
            = st.visited_urls ++ [current_url] := hp.1
        have hcur : current_url ∉ st.pages.map Page.url := by
          intro hc
          obtain ⟨page, hpage, hurl⟩ := List.mem_map.mp hc
          exact hv (hurl ▸ h2 page hpage)
        rcases hp.2 with hsame | ⟨page, hpu, happ⟩
        · rw [hvis, hsame]
          exact ⟨h1, fun page hpage => List.mem_append_left _ (h2 page hpage)⟩
        · rw [hvis, happ]
          constructor
          · simp only [List.map_append, List.map_cons, List.map_nil]
            rw [List.nodup_append]
            refine ⟨h1, List.nodup_singleton _, ?_⟩
            intro a ha hb
            simp only [List.mem_singleton] at hb
            subst hb
            rw [hpu] at ha
            exact hcur ha
          · intro q hq'
            rcases List.mem_append.mp hq' with hin | hin
            · exact List.mem_append_left _ (h2 q hin)
            · simp only [List.mem_singleton] at hin
              subst hin
              rw [hpu]
              exact List.mem_append_right _ (by simp)

/-- The scheduler loop preserves the invariant. -/
theorem crawlLoop_inv (cfg : CrawlConfig) :
    ∀ (fuel : Nat) (st : CrawlState),
      (st.pages.map Page.url).Nodup →
      (∀ page ∈ st.pages, page.url ∈ st.visited_urls) →
      ((crawlLoop cfg fuel st).pages.map Page.url).Nodup := by
  intro fuel
  induction fuel with
  | zero => intro st h1 _; exact h1
  | succ n ih =>
    intro st h1 h2
    rcases hstep : crawlStep cfg st with _ | st'
    · simpa [crawlLoop, hstep] using h1
    · have h' := crawlStep_inv cfg st st' hstep h1 h2
      simpa [crawlLoop, hstep] using ih st' h'.1 h'.2

/-- Claim C6: per crawl, each URL is dispatched at most once — a URL
already in the visited set is popped and skipped without dispatch, an
internal link whose clean URL is already visited is not re-enqueued —
and consequently the `url` field is unique across the page-record set of
one crawl. -/
theorem claim_c6 :
    (∀ (cfg : CrawlConfig) (fuel : Nat),
        ((start_crawl cfg fuel).pages.map Page.url).Nodup) ∧
    (∀ (cfg : CrawlConfig) (st : CrawlState) (u s : String) (rest : List (String × String)),
        st.url_queue = (u, s) :: rest → u ∈ st.visited_urls →
        crawlStep cfg st = some { st with url_queue := rest }) ∧
    (∀ (lib : UrlLib) (base_domain source_url : String) (st : CrawlState)
        (href clean_url : String),
        classifyLink lib base_domain href source_url = .internal clean_url →
        clean_url ∈ st.visited_urls →
        collectOne lib base_domain source_url st href = st) := by
  refine ⟨?_, ?_, ?_⟩
  · intro cfg fuel
    exact crawlLoop_inv cfg fuel _ (by simp) (by simp)
  · intro cfg st u s rest hq hv
    rw [crawlStep_cons cfg st u s rest hq, if_pos hv]
  · intro lib base_domain source_url st href clean_url hcl hv
    rw [collectOne_internal lib base_domain source_url st href clean_url hcl, if_pos hv]

/-- Witness for claim C6's conditional parts: a concrete state whose
queue head is already visited is popped without dispatch, and a concrete
internal link whose clean URL is already visited leaves the state
untouched. -/
theorem claim_c6_witness :
    crawlStep { lib := urlLibModel, base_url := "https://a.com/", world := fun _ => .exn }
        { visited_urls := ["https://a.com/"], url_queue := [("https://a.com/", "https://a.com/")] }
      = some { ({ visited_urls := ["https://a.com/"],
                  url_queue := [("https://a.com/", "https://a.com/")] } : CrawlState) with
                 url_queue := [] } ∧
    collectOne urlLibModel "a.com" "https://a.com/"
        { visited_urls := ["https://a.com/x"] } "https://a.com/x#sec"
      = { visited_urls := ["https://a.com/x"] } :=
  ⟨claim_c6.2.1 _ _ "https://a.com/" "https://a.com/" [] rfl (by decide),
   claim_c6.2.2 urlLibModel "a.com" "https://a.com/" _ "https://a.com/x#sec" "https://a.com/x"
     (by decide) (by decide)⟩

/-!  ## Claim C9 — scheduler termination -/

/-- Any step whose target state is concluded via the
empty-queue-and-all-done branch has an empty task list: that branch's
guard checks `all(future.done())` and no rule fires from a concluded
state. -/
theorem schedStep_emptyDone (cfg : SchedConfig) (a b : SchedState)
    (h : SchedStep cfg a b) (hc : b.concluded = some .emptyDone) : b.tasks = [] := by
  cases h <;> simp_all

/-- Claim C9 as amended: except via the `max_pages` branch, the
scheduler concludes only in a state where every dispatched task has
finished; the pending queue, however, may be non-empty at conclusion,
because the queue-empty observation and the all-done check are separate
observations. -/
theorem claim_c9_amended :
    ∀ (cfg : SchedConfig) (s s' : SchedState),
      SchedReaches cfg s s' → s.concluded = none →
      s'.concluded = some .emptyDone → s'.tasks = [] := by
  intro cfg s s' h hs hc
  induction h with
  | refl => rw [hs] at hc; exact absurd hc (by simp)
  | tail _ hstep _ => exact schedStep_emptyDone cfg _ _ hstep hc

/-- Witness for the amended claim C9: a concrete two-step run (observe
the queue empty, then pass the all-done check) reaches the concluded
state, whose task list the theorem shows empty. -/
theorem claim_c9_amended_witness :
    ({ queue := [], visited := [], tasks := [], phase := .afterEmpty,
       concluded := some .emptyDone } : SchedState).tasks = [] :=
  claim_c9_amended { max_pages := none, spawn := fun _ _ => [] }
    { queue := [], visited := [], tasks := [], phase := .atGet, concluded := none }
    { queue := [], visited := [], tasks := [], phase := .afterEmpty,
      concluded := some .emptyDone }
    (Relation.ReflTransGen.tail
      (Relation.ReflTransGen.tail Relation.ReflTransGen.refl
        (SchedStep.observeEmpty _ rfl rfl rfl))
      (SchedStep.allDone _ rfl rfl rfl))
    rfl rfl

/-- Counterexample to claim C9: under `cfgRace` the scheduler can
conclude through the empty-queue-and-all-done branch (not the
`max_pages` branch) with a non-empty pending queue.  The trace:
dispatch the seed; the queue is observed empty while the task is in
flight; the task then enqueues its discovered link and finishes; the
all-done check passes and the loop breaks with the link still
pending. -/
theorem claim_c9_counterexample :
    SchedReaches cfgRace (schedInit "https://a.com/") sRace ∧
    sRace.concluded = some .emptyDone ∧ sRace.queue ≠ [] := by
  refine ⟨?_, rfl, by decide⟩
  have h1 : SchedStep cfgRace (schedInit "https://a.com/")
      { queue := [], visited := ["https://a.com/"],
        tasks := [[("https://a.com/p", "https://a.com/")]],
        phase := .atGet, concluded := none } :=
    SchedStep.popDispatch (schedInit "https://a.com/")
      "https://a.com/" "https://a.com/" [] rfl rfl rfl (by decide) rfl
  have h2 : SchedStep cfgRace
      { queue := [], visited := ["https://a.com/"],
        tasks := [[("https://a.com/p", "https://a.com/")]],
        phase := .atGet, concluded := none }
      { queue := [], visited := ["https://a.com/"],
        tasks := [[("https://a.com/p", "https://a.com/")]],
        phase := .afterEmpty, concluded := none } :=
    SchedStep.observeEmpty _ rfl rfl rfl
  have h3 : SchedStep cfgRace
      { queue := [], visited := ["https://a.com/"],
        tasks := [[("https://a.com/p", "https://a.com/")]],
        phase := .afterEmpty, concluded := none }
      { queue := [("https://a.com/p", "https://a.com/")], visited := ["https://a.com/"],
        tasks := [[]], phase := .afterEmpty, concluded := none } :=
    SchedStep.taskPutNew
      { queue := [], visited := ["https://a.com/"],
        tasks := [[("https://a.com/p", "https://a.com/")]],
        phase := .afterEmpty, concluded := none }
      [] ("https://a.com/p", "https://a.com/") [] [] rfl rfl (by decide)
  have h4 : SchedStep cfgRace
      { queue := [("https://a.com/p", "https://a.com/")], visited := ["https://a.com/"],
        tasks := [[]], phase := .afterEmpty, concluded := none }
      { queue := [("https://a.com/p", "https://a.com/")], visited := ["https://a.com/"],
        tasks := [], phase := .afterEmpty, concluded := none } :=
    SchedStep.taskFinish
      { queue := [("https://a.com/p", "https://a.com/")], visited := ["https://a.com/"],
        tasks := [[]], phase := .afterEmpty, concluded := none }
      [] [] rfl rfl
  have h5 : SchedStep cfgRace
      { queue := [("https://a.com/p", "https://a.com/")], visited := ["https://a.com/"],
        tasks := [], phase := .afterEmpty, concluded := none } sRace :=
    SchedStep.allDone _ rfl rfl rfl
  exact .tail (.tail (.tail (.tail (.tail .refl h1) h2) h3) h4) h5

/-!  ## Claims C7 and C8 — the hierarchy tree build -/

/-- Replacing a present key makes lookup return the new value. -/
theorem lookupEntry_replaceEntry_self {α : Type} (es : List (String × α)) (k : String)
    (v nv : α) (h : lookupEntry es k = some v) :
    lookupEntry (replaceEntry es k nv) k = some nv := by
  induction es with
  | nil => simp [lookupEntry] at h
  | cons e es ih =>
    obtain ⟨k0, v0⟩ := e
    by_cases hk : k0 = k
    · subst hk; simp [replaceEntry, lookupEntry]
    · simp only [lookupEntry, if_neg hk] at h
      simp only [replaceEntry, if_neg hk, lookupEntry]
      exact ih h

/-- Replacing one key leaves lookups of other keys unchanged. -/
theorem lookupEntry_replaceEntry_ne {α : Type} (es : List (String × α)) (k k' : String)
    (nv : α) (h : k' ≠ k) :
    lookupEntry (replaceEntry es k nv) k' = lookupEntry es k' := by
  induction es with
  | nil => rfl
  | cons e es ih =>
    obtain ⟨k0, v0⟩ := e
    by_cases h0 : k0 = k
    · subst h0
      simp only [replaceEntry, if_pos rfl, lookupEntry]
      rw [if_neg (fun hk => h hk.symm), if_neg (fun hk => h hk.symm)]
    · simp only [replaceEntry, if_neg h0, lookupEntry]
      by_cases h1 : k0 = k' <;> simp [h1, ih]

/-- Lookup in an appended association list. -/
theorem lookupEntry_append {α : Type} (es fs : List (String × α)) (k : String) :
    lookupEntry (es ++ fs) k =
      match lookupEntry es k with
      | some v => some v
      | none => lookupEntry fs k := by
  induction es with
  | nil => simp [lookupEntry]
  | cons e es ih =>
    obtain ⟨k0, v0⟩ := e
    by_cases h : k0 = k <;> simp [lookupEntry, h, ih]

/-- A page whose remaining hierarchy is empty contributes nothing. -/
theorem contribAux_hier_nil (u ti : String) (level : Nat) (path : List String) :
    contribAux u ti level [] path = [] := by
  cases path <;> simp [contribAux]

/-- The empty tree has no pages anywhere. -/
theorem pagesAt_empty (path : List String) : pagesAt (.mk []) path = [] := by
  cases path <;> simp [pagesAt, lookupEntry]

/-- The empty tree has no nodes anywhere. -/
theorem existsAt_empty (path : List String) : existsAt (.mk []) path = false := by
  cases path <;> simp [existsAt, lookupEntry]

/-- Unfolding `pagesAt` on a non-empty path. -/
theorem pagesAt_cons (es : List (String × List PageRef × HTree)) (seg : String)
    (rest : List String) :
    pagesAt (.mk es) (seg :: rest) =
      match lookupEntry es seg with
      | none => []
      | some (ps, child) => if rest = [] then ps else pagesAt child rest := rfl

/-- Unfolding `existsAt` on a non-empty path. -/
theorem existsAt_cons (es : List (String × List PageRef × HTree)) (seg : String)
    (rest : List String) :
    existsAt (.mk es) (seg :: rest) =
      match lookupEntry es seg with
      | none => false
      | some (_, child) => if rest = [] then true else existsAt child rest := rfl

/-- Unfolding `insertHier` when the head segment is absent. -/
theorem insertHier_cons_none (u ti : String) (level : Nat)
    (es : List (String × List PageRef × HTree)) (hseg : String) (hrest : List String)
    (hl : lookupEntry es hseg = none) :
    insertHier u ti level (.mk es) (hseg :: hrest)
      = .mk (es ++ [(hseg, ([⟨u, ti, level⟩], insertHier u ti (level + 1) (.mk []) hrest))]) := by
  simp [insertHier, hl]

/-- Unfolding `insertHier` when the head segment is present. -/
theorem insertHier_cons_some (u ti : String) (level : Nat)
    (es : List (String × List PageRef × HTree)) (hseg : String) (hrest : List String)
    (ps : List PageRef) (child : HTree) (hl : lookupEntry es hseg = some (ps, child)) :
    insertHier u ti level (.mk es) (hseg :: hrest)
      = .mk (replaceEntry es hseg
          (ps ++ [⟨u, ti, level⟩], insertHier u ti (level + 1) child hrest)) := by
  simp [insertHier, hl]

/-- Inserting one page's hierarchy appends exactly that page's
contribution to the `_pages` list of every node. -/
theorem pagesAt_insertHier (u ti : String) :
    ∀ (path : List String) (level : Nat) (hier : List String) (t : HTree),
      pagesAt (insertHier u ti level t hier) path
        = pagesAt t path ++ contribAux u ti level hier path := by
  intro path
  induction path with
  | nil => intro level hier t; cases hier <;> simp [pagesAt, contribAux]
  | cons seg rest ih =>
    intro level hier t
    obtain ⟨es⟩ := t
    cases hier with
    | nil => simp [insertHier, contribAux]
    | cons hseg hrest =>
      rcases hl : lookupEntry es hseg with _ | ⟨ps, child⟩
      · rw [insertHier_cons_none u ti level es hseg hrest hl]
        by_cases hk : hseg = seg
        · subst hk
          have hlook : lookupEntry
              (es ++ [(hseg, ([⟨u, ti, level⟩], insertHier u ti (level + 1) (.mk []) hrest))])
              hseg
              = some ([⟨u, ti, level⟩], insertHier u ti (level + 1) (.mk []) hrest) := by
            rw [lookupEntry_append, hl]; simp [lookupEntry]
          rw [pagesAt_cons, hlook, pagesAt_cons, hl]
          rcases rest with _ | ⟨r, rs⟩
          · simp [contribAux]
          · simp [contribAux, ih, pagesAt_empty]
        · have hlook : lookupEntry
              (es ++ [(hseg, ([⟨u, ti, level⟩], insertHier u ti (level + 1) (.mk []) hrest))])
              seg = lookupEntry es seg := by
            rw [lookupEntry_append]
            rcases h2 : lookupEntry es seg with _ | v <;> simp [lookupEntry, hk]
          rw [pagesAt_cons, hlook, pagesAt_cons]
          simp [contribAux, hk]
      · rw [insertHier_cons_some u ti level es hseg hrest ps child hl]
        by_cases hk : hseg = seg
        · subst hk
          rw [pagesAt_cons,
            lookupEntry_replaceEntry_self es hseg (ps, child) _ hl,
            pagesAt_cons, hl]
          rcases rest with _ | ⟨r, rs⟩
          · simp [contribAux]
          · simp [contribAux, ih]
        · rw [pagesAt_cons,
            lookupEntry_replaceEntry_ne es hseg seg _ (fun hs => hk hs.symm),
            pagesAt_cons]
          simp [contribAux, hk]

/-- Inserting one page's hierarchy creates a node at exactly the paths
where the page contributes, and keeps every existing node. -/
theorem existsAt_insertHier (u ti : String) :
    ∀ (path : List String) (level : Nat) (hier : List String) (t : HTree),
      existsAt (insertHier u ti level t hier) path
        = (existsAt t path || !(contribAux u ti level hier path).isEmpty) := by
  intro path
  induction path with
  | nil => intro level hier t; cases hier <;> simp [existsAt, contribAux]
  | cons seg rest ih =>
    intro level hier t
    obtain ⟨es⟩ := t
    cases hier with
    | nil => simp [insertHier, contribAux]
    | cons hseg hrest =>
      rcases hl : lookupEntry es hseg with _ | ⟨ps, child⟩
      · rw [insertHier_cons_none u ti level es hseg hrest hl]
        by_cases hk : hseg = seg
        · subst hk
          have hlook : lookupEntry
              (es ++ [(hseg, ([⟨u, ti, level⟩], insertHier u ti (level + 1) (.mk []) hrest))])
              hseg
              = some ([⟨u, ti, level⟩], insertHier u ti (level + 1) (.mk []) hrest) := by
            rw [lookupEntry_append, hl]; simp [lookupEntry]
          rw [existsAt_cons, hlook, existsAt_cons, hl]
          rcases rest with _ | ⟨r, rs⟩
          · simp [contribAux]
          · simp [contribAux, ih, existsAt_empty]
        · have hlook : lookupEntry
              (es ++ [(hseg, ([⟨u, ti, level⟩], insertHier u ti (level + 1) (.mk []) hrest))])
              seg = lookupEntry es seg := by
            rw [lookupEntry_append]
            rcases h2 : lookupEntry es seg with _ | v <;> simp [lookupEntry, hk]
          rw [existsAt_cons, hlook, existsAt_cons]
          simp [contribAux, hk]
      · rw [insertHier_cons_some u ti level es hseg hrest ps child hl]
        by_cases hk : hseg = seg
        · subst hk
          rw [existsAt_cons,
            lookupEntry_replaceEntry_self es hseg (ps, child) _ hl,
            existsAt_cons, hl]
          rcases rest with _ | ⟨r, rs⟩
          · simp [contribAux]
          · simp [contribAux, ih]
        · rw [existsAt_cons,
            lookupEntry_replaceEntry_ne es hseg seg _ (fun hs => hk hs.symm),
            existsAt_cons]
          simp [contribAux, hk]

/-- The tree built by `build_hierarchy_tree` holds, at each node,
exactly the concatenated per-page contributions, in page order. -/
theorem pagesAt_build (hierarchy_type : String) (path : List String) :
    ∀ (pages : List Page) (t : HTree),
      pagesAt (pages.foldl
          (fun tree page =>
            let hierarchy := hierOf hierarchy_type page
            if hierarchy = [] then tree else insertHier page.url page.title 0 tree hierarchy)
          t) path
        = pagesAt t path ++ contribsAll hierarchy_type path pages := by
  intro pages
  induction pages with
  | nil => intro t; simp [contribsAll]
  | cons p ps ih =>
    intro t
    by_cases h : hierOf hierarchy_type p = []
    · rw [List.foldl_cons, ih]
      simp [h, contribsAll, contribAux_hier_nil]
    · have hstep : (let hierarchy := hierOf hierarchy_type p
            if hierarchy = [] then t else insertHier p.url p.title 0 t hierarchy)
            = insertHier p.url p.title 0 t (hierOf hierarchy_type p) := by
        simp [h]
      rw [List.foldl_cons, hstep, ih, pagesAt_insertHier]
      simp [contribsAll, List.append_assoc]

/-- `build_hierarchy_tree` at the empty initial tree. -/
theorem pagesAt_build_hierarchy_tree (pages : List Page) (hierarchy_type : String)
    (path : List String) :
    pagesAt (build_hierarchy_tree pages hierarchy_type) path
      = contribsAll hierarchy_type path pages := by
  have h := pagesAt_build hierarchy_type path pages (.mk [])
  unfold build_hierarchy_tree
  simpa [pagesAt_empty] using h

/-- `isEmpty` distributes over list append. -/
theorem isEmpty_append_list {α : Type} (a b : List α) :
    (a ++ b).isEmpty = (a.isEmpty && b.isEmpty) := by
  cases a <;> simp

/-- Node existence in the built tree is non-emptiness of the
concatenated contributions. -/
theorem existsAt_build (hierarchy_type : String) (path : List String) :
    ∀ (pages : List Page) (t : HTree),
      existsAt (pages.foldl
          (fun tree page =>
            let hierarchy := hierOf hierarchy_type page
            if hierarchy = [] then tree else insertHier page.url page.title 0 tree hierarchy)
          t) path
        = (existsAt t path || !(contribsAll hierarchy_type path pages).isEmpty) := by
  intro pages
  induction pages with
  | nil => intro t; simp [contribsAll]
  | cons p ps ih =>
    intro t
    by_cases h : hierOf hierarchy_type p = []
    · rw [List.foldl_cons, ih]
      simp [h, contribsAll, contribAux_hier_nil]
    · have hstep : (let hierarchy := hierOf hierarchy_type p
            if hierarchy = [] then t else insertHier p.url p.title 0 t hierarchy)
            = insertHier p.url p.title 0 t (hierOf hierarchy_type p) := by
        simp [h]
      rw [List.foldl_cons, hstep, ih, existsAt_insertHier]
      simp [contribsAll, isEmpty_append_list, Bool.not_and, Bool.or_assoc]

/-- `build_hierarchy_tree` node existence at the empty initial tree. -/
theorem existsAt_build_hierarchy_tree (pages : List Page) (hierarchy_type : String)
    (path : List String) :
    existsAt (build_hierarchy_tree pages hierarchy_type) path
      = !(contribsAll hierarchy_type path pages).isEmpty := by
  have h := existsAt_build hierarchy_type path pages (.mk [])
  unfold build_hierarchy_tree
  simpa [existsAt_empty] using h

/-- Contributions distribute over list append. -/
theorem contribsAll_append (hierarchy_type : String) (path : List String) :
    ∀ l₁ l₂ : List Page,
      contribsAll hierarchy_type path (l₁ ++ l₂)
        = contribsAll hierarchy_type path l₁ ++ contribsAll hierarchy_type path l₂ := by
  intro l₁ l₂
  induction l₁ with
  | nil => simp [contribsAll]
  | cons p ps ih => simp [contribsAll, ih]

/-- Reversing the page list preserves the total contribution count at
every path. -/
theorem contribsAll_reverse_length (hierarchy_type : String) (path : List String) :
    ∀ l : List Page,
      (contribsAll hierarchy_type path l.reverse).length
        = (contribsAll hierarchy_type path l).length := by
  intro l
  induction l with
  | nil => rfl
  | cons p ps ih =>
    rw [List.reverse_cons, contribsAll_append]
    simp only [contribsAll, List.length_append]
    rw [ih]
    simp [contribsAll]
    omega

/-- Claim C8: building the hierarchy tree from a page list and from its
reversal yields isomorphic trees — the same node paths exist in both and
each node holds the same number of page references; only within-node
order may differ. -/
theorem claim_c8 :
    ∀ (pages : List Page) (hierarchy_type : String) (path : List String),
      existsAt (build_hierarchy_tree pages.reverse hierarchy_type) path
        = existsAt (build_hierarchy_tree pages hierarchy_type) path ∧
      (pagesAt (build_hierarchy_tree pages.reverse hierarchy_type) path).length
        = (pagesAt (build_hierarchy_tree pages hierarchy_type) path).length := by
  intro pages hierarchy_type path
  constructor
  · rw [existsAt_build_hierarchy_tree, existsAt_build_hierarchy_tree]
    have h : (contribsAll hierarchy_type path pages.reverse).isEmpty
        = (contribsAll hierarchy_type path pages).isEmpty := by
      rw [Bool.eq_iff_iff, List.isEmpty_iff_length_eq_zero, List.isEmpty_iff_length_eq_zero,
        contribsAll_reverse_length]
    rw [h]
  · rw [pagesAt_build_hierarchy_tree, pagesAt_build_hierarchy_tree,
      contribsAll_reverse_length]

/-- Every reference a page contributes carries that page's URL. -/
theorem contribAux_mem_url (u ti : String) :
    ∀ (path hier : List String) (level : Nat) (r : PageRef),
      r ∈ contribAux u ti level hier path → r.url = u := by
  intro path
  induction path with
  | nil => intro hier level r h; simp [contribAux] at h
  | cons seg rest ih =>
    intro hier level r h
    cases hier with
    | nil => simp [contribAux] at h
    | cons hseg hrest =>
      by_cases hk : hseg = seg
      · simp only [contribAux, if_pos hk] at h
        by_cases hr : rest = []
        · rw [if_pos hr] at h
          simp only [List.mem_singleton] at h
          subst h
          rfl
        · rw [if_neg hr] at h
          exact ih hrest (level + 1) r h
      · simp [contribAux, hk] at h

/-- Every reference in the concatenated contributions carries the URL of
some contributing page. -/
theorem contribsAll_mem_url (hierarchy_type : String) (path : List String) :
    ∀ (l : List Page) (r : PageRef),
      r ∈ contribsAll hierarchy_type path l → ∃ q ∈ l, r.url = q.url := by
  intro l
  induction l with
  | nil => intro r h; simp [contribsAll] at h
  | cons p ps ih =>
    intro r h
    simp only [contribsAll, List.mem_append] at h
    rcases h with h | h
    · exact ⟨p, by simp, contribAux_mem_url p.url p.title path _ 0 r h⟩
    · obtain ⟨q, hq, hr⟩ := ih r h
      exact ⟨q, by simp [hq], hr⟩

/-- With distinct page URLs, filtering a node's references by one page's
URL leaves exactly that page's contribution. -/
theorem contribsAll_filter (hierarchy_type : String) (path : List String) :
    ∀ (l : List Page) (p : Page), p ∈ l → (l.map Page.url).Nodup →
      (contribsAll hierarchy_type path l).filter (fun r => decide (r.url = p.url))
        = contribAux p.url p.title 0 (hierOf hierarchy_type p) path := by
  intro l
  induction l with
  | nil => intro p hp _; simp at hp
  | cons q qs ih =>
    intro p hp hnd
    rw [List.map_cons, List.nodup_cons] at hnd
    obtain ⟨hqnot, hnd'⟩ := hnd
    simp only [contribsAll, List.filter_append]
    rcases List.mem_cons.mp hp with rfl | hp'
    · have h1 : (contribAux p.url p.title 0 (hierOf hierarchy_type p) path).filter
          (fun r => decide (r.url = p.url))
          = contribAux p.url p.title 0 (hierOf hierarchy_type p) path :=
        List.filter_eq_self.mpr
          (fun r hr => by simp [contribAux_mem_url p.url p.title path _ 0 r hr])
      have h2 : (contribsAll hierarchy_type path qs).filter
          (fun r => decide (r.url = p.url)) = [] := by
        apply List.filter_eq_nil_iff.mpr
        intro r hr
        obtain ⟨q', hq', hru⟩ := contribsAll_mem_url hierarchy_type path qs r hr
        have hmem : q'.url ∈ qs.map Page.url := List.mem_map_of_mem _ hq'
        simp only [decide_eq_true_eq]
        intro hcontra
        rw [hcontra] at hru
        exact hqnot (hru ▸ hmem)
      rw [h1, h2, List.append_nil]
    · have hpu : p.url ∈ qs.map Page.url := List.mem_map_of_mem _ hp'
      have hqp : q.url ≠ p.url := fun hc => hqnot (hc ▸ hpu)
      have h1 : (contribAux q.url q.title 0 (hierOf hierarchy_type q) path).filter
          (fun r => decide (r.url = p.url)) = [] := by
        apply List.filter_eq_nil_iff.mpr
        intro r hr
        have hru := contribAux_mem_url q.url q.title path _ 0 r hr
        simp [hru, hqp]
      rw [h1, List.nil_append]
      exact ih p hp' hnd'

/-- A page contributes exactly one reference, with depth equal to the
level, at each of its own path prefixes. -/
theorem contribAux_take (u ti : String) :
    ∀ (hier : List String) (i level : Nat), i < hier.length →
      contribAux u ti level hier (hier.take (i + 1)) = [⟨u, ti, level + i⟩] := by
  intro hier
  induction hier with
  | nil => intro i level h; simp at h
  | cons hseg hrest ih =>
    intro i level h
    rw [List.take_succ_cons]
    rcases i with _ | j
    · simp [contribAux]
    · have hj : j < hrest.length := by simpa using h
      have hrne : hrest ≠ [] := by
        intro hc
        rw [hc] at hj
        simp at hj
      have hne : hrest.take (j + 1) ≠ [] := by
        rw [ne_eq, List.take_eq_nil_iff]
        simp [hrne]
      have harith : level + 1 + j = level + (j + 1) := by omega
      simp only [contribAux, if_pos rfl, if_neg hne]
      rw [ih j (level + 1) hj, harith]
      simp

/-- Claim C7: the tree build skips pages lacking a hierarchy of the
requested kind, and every remaining page with hierarchy of length `n`
appears, for each `i < n`, exactly once — as the reference
`{url, title, depth := i}` — in the `_pages` list of the node reached by
its own path prefix of length `i + 1` (page URLs are unique across the
page-record set of one crawl). -/
theorem claim_c7 :
    (∀ (page : Page) (pages : List Page) (hierarchy_type : String),
        hierOf hierarchy_type page = [] →
        build_hierarchy_tree (page :: pages) hierarchy_type
          = build_hierarchy_tree pages hierarchy_type) ∧
    (∀ (pages : List Page) (hierarchy_type : String) (page : Page) (i : Nat),
        (pages.map Page.url).Nodup → page ∈ pages →
        i < (hierOf hierarchy_type page).length →
        (pagesAt (build_hierarchy_tree pages hierarchy_type)
            ((hierOf hierarchy_type page).take (i + 1))).filter
            (fun r => decide (r.url = page.url))
          = [⟨page.url, page.title, i⟩]) := by
  constructor
  · intro page pages hierarchy_type h
    unfold build_hierarchy_tree
    rw [List.foldl_cons]
    have hstep : (let hierarchy := hierOf hierarchy_type page
          if hierarchy = [] then (HTree.mk []) else
            insertHier page.url page.title 0 (HTree.mk []) hierarchy)
          = (HTree.mk []) := by
      simp [h]
    rw [hstep]
  · intro pages hierarchy_type page i hnd hp hi
    rw [pagesAt_build_hierarchy_tree,
      contribsAll_filter hierarchy_type _ pages page hp hnd,
      contribAux_take page.url page.title (hierOf hierarchy_type page) i 0 hi]
    simp

/-- Witness for claim C7 at a concrete two-page list: the page with URL
hierarchy `["/", "p"]` appears exactly once, at depth 1, in the node
reached by that full path. -/
theorem claim_c7_witness :
    (pagesAt
        (build_hierarchy_tree
          [ { url := "https://a.com/", title := "Home", url_hierarchy := some ["/"] }
          , { url := "https://a.com/p", title := "P", url_hierarchy := some ["/", "p"] } ]
          "url")
        ["/", "p"]).filter (fun r => decide (r.url = "https://a.com/p"))
      = [⟨"https://a.com/p", "P", 1⟩] :=
  claim_c7.2
    [ { url := "https://a.com/", title := "Home", url_hierarchy := some ["/"] }
    , { url := "https://a.com/p", title := "P", url_hierarchy := some ["/", "p"] } ]
    "url"
    { url := "https://a.com/p", title := "P", url_hierarchy := some ["/", "p"] }
    1 (by decide) (by decide) (by decide)
